import Mathlib

/-!
Verification development for the survey analysis pipeline
(schema validation, QA loader, Likert encoder, descriptive statistics,
confirmatory test engine, multiple-comparison correction).

The Python source is shallowly embedded:
* a pandas `DataFrame` becomes `Df` (a column list plus rows of cells);
* floating point arithmetic is modelled with `ℚ`;
* `NaN` / missing cells become `Cell.na` (and `Option ℚ` for numeric views);
* functions that can raise become `Except`-valued;
* the external SciPy test statistics (`mannwhitneyu`, `kruskal`) are passed
  in as parameters, since they are external collaborators of the engine.
-/

/-- Cell of a loaded data table: missing (`NaN`), numeric, or text. -/
inductive Cell where
  | na : Cell
  | num (q : ℚ) : Cell
  | str (s : String) : Cell
deriving DecidableEq, Repr

/-- A row keyed by column name; a column missing from the row reads as `na`. -/
abbrev Row := List (String × Cell)

/-- Read a cell from a row (the pandas `row[col]` access). -/
def getCell (r : Row) (c : String) : Cell :=
  (r.lookup c).getD Cell.na

/-- A data table: the column names plus the rows. -/
structure Df where
  cols : List String
  rows : List Row
deriving DecidableEq

/-- QA filter configuration (`QAFilters` in `schema.py`). -/
structure QAFilters where
  age_column : String
  age_keep_value : String
  attention_check_column : String
  attention_check_expected : String
deriving DecidableEq

/-- Index configuration (`IndexConfig` in `schema.py`). -/
structure IndexConfig where
  id : String
  label_pl : String
  direction_label_pl : String
  items : List String
  reverse_items : List String
deriving DecidableEq

/-- Correlation scope tag (`Literal` in `schema.py`). -/
inductive Scope where
  | all_items : Scope
  | indices_only : Scope
  | indices_and_items : Scope
deriving DecidableEq, Repr

/-- Correlations configuration (`CorrelationsConfig` in `schema.py`). -/
structure CorrelationsConfig where
  scope : Scope
  items_explicit : List String
deriving DecidableEq

/-- Test type tag of a confirmatory test. -/
inductive TestType where
  | descriptive : TestType
  | mann_whitney : TestType
  | kruskal_wallis : TestType
deriving DecidableEq, Repr

/-- Confirmatory test configuration (`ConfirmatoryTest` in `schema.py`).
Python's falsy `None`/empty `iv_grouping` is modelled with `Option String`
(the empty string is still checked for, mirroring Python truthiness). -/
structure ConfirmatoryTest where
  id : String
  dv : String
  iv_grouping : Option String
  test_type : TestType
deriving DecidableEq

/-- Gating thresholds (`GatingThresholds` in `schema.py`); the pydantic
`gt=0` field constraint is a validation invariant, checked by `validatePlan`. -/
structure GatingThresholds where
  min_group_n : ℕ
deriving DecidableEq

/-- Missingness rules (`MissingnessRules` in `schema.py`). -/
structure MissingnessRules where
  flag_threshold : ℚ
deriving DecidableEq

/-- Multiple-comparison correction method tag. -/
inductive FdrMethod where
  | bh : FdrMethod
  | bonferroni : FdrMethod
  | holm : FdrMethod
deriving DecidableEq, Repr

/-- FDR settings (`FDRSettings` in `schema.py`). -/
structure FDRSettings where
  q : ℚ
  method : FdrMethod
deriving DecidableEq

/-- Chart type tag. -/
inductive ChartType where
  | diverging_bar : ChartType
  | stacked_bar : ChartType
  | grouped_bar : ChartType
deriving DecidableEq, Repr

/-- Chart configuration (`ChartConfig` in `schema.py`). -/
structure ChartConfig where
  id : String
  type : ChartType
  items : List String
deriving DecidableEq

/-- The declarative analysis plan (`AnalysisPlan` in `schema.py`).
`item_labels` is an association list (a Python dict preserves insertion
order, which is what the validator iterates in). `persona_texts` only feeds
the excluded narrative layer and is omitted. -/
structure AnalysisPlan where
  version : String
  items_universe : List String
  item_labels : List (String × String)
  qa_filters : QAFilters
  indices : List IndexConfig
  correlations : CorrelationsConfig
  confirmatory_tests : List ConfirmatoryTest
  gating_thresholds : GatingThresholds
  missingness_rules : MissingnessRules
  fdr_settings : FDRSettings
  charts : List ChartConfig
deriving DecidableEq

/-- Result of loading and filtering the data (`LoadResult` in `loader.py`). -/
structure LoadResult where
  df : Df
  n_total : ℕ
  n_after_age : ℕ
  n_after_attention : ℕ
  ignored_columns : List String
deriving DecidableEq

/-- The pandas comparison `cell == value` against a configured string
literal: `NaN` and numbers compare unequal to a string. -/
def cellEqStr (c : Cell) (v : String) : Bool :=
  match c with
  | Cell.str s => s == v
  | _ => false

/-- `load_and_filter` from `loader.py`, starting from the already-read
table (the file-system lookup is out of scope).  Checks the required
columns, then applies the age filter and the attention-check filter
sequentially, recording the row count after each gate. -/
def load_and_filter (config : AnalysisPlan) (df : Df) : Except String LoadResult :=
  let n_total := df.rows.length
  match config.items_universe.find? (fun item => !(df.cols.contains item)) with
  | some item => Except.error ("items_universe column missing from CSV: " ++ item)
  | none =>
    let qa := config.qa_filters
    if !(df.cols.contains qa.age_column) then
      Except.error ("age_column missing from CSV: " ++ qa.age_column)
    else if !(df.cols.contains qa.attention_check_column) then
      Except.error ("attention_check_column missing from CSV: " ++ qa.attention_check_column)
    else
      let rows1 := df.rows.filter (fun r => cellEqStr (getCell r qa.age_column) qa.age_keep_value)
      let n_after_age := rows1.length
      let rows2 := rows1.filter
        (fun r => cellEqStr (getCell r qa.attention_check_column) qa.attention_check_expected)
      let n_after_attention := rows2.length
      let items_set := config.items_universe
      let ignored := df.cols.filter
        (fun c => !(items_set.contains c) && !(c == qa.age_column) && !(c == qa.attention_check_column))
      Except.ok
        { df := { cols := df.cols, rows := rows2 }
          n_total := n_total
          n_after_age := n_after_age
          n_after_attention := n_after_attention
          ignored_columns := ignored }

/-- The fixed agree/disagree lexicon (`LIKERT_AGREE_MAP` in `loader.py`). -/
def likertAgreeMap (s : String) : Option ℚ :=
  if s = "Zdecydowanie się nie zgadzam" then some 1
  else if s = "Raczej się nie zgadzam" then some 2
  else if s = "Ani tak, ani nie" then some 3
  else if s = "Raczej się zgadzam" then some 4
  else if s = "Zdecydowanie się zgadzam" then some 5
  else none

/-- The fixed degree-intensity lexicon (`LIKERT_DEGREE_MAP` in `loader.py`). -/
def likertDegreeMap (s : String) : Option ℚ :=
  if s = "Wcale" then some 1
  else if s = "W małym stopniu" then some 2
  else if s = "W umiarkowanym stopniu" then some 3
  else if s = "W dużym stopniu" then some 4
  else if s = "W bardzo dużym stopniu" then some 5
  else none

/-- Decimal digit value of a character, if it is a digit. -/
def digitVal (c : Char) : Option ℕ :=
  if '0'.val ≤ c.val ∧ c.val ≤ '9'.val then some (c.val.toNat - '0'.val.toNat) else none

/-- Parse a non-empty all-digit character list as a natural number. -/
def parseDigitsAux (acc : ℕ) : List Char → Option ℕ
  | [] => some acc
  | c :: cs =>
    match digitVal c with
    | some d => parseDigitsAux (acc * 10 + d) cs
    | none => none

/-- Parse a decimal-digit string (the numeric strings occurring in the
survey data); anything else fails. -/
def parseNumStr (s : String) : Option ℕ :=
  match s.data with
  | [] => none
  | c :: cs => parseDigitsAux 0 (c :: cs)

/-- Numeric-string parsing of one cell, modelling `pd.to_numeric(errors="coerce")`
on the digit strings that occur in the data (unparseable text coerces to `NaN`;
the full float grammar of pandas is out of scope). -/
def parseNumCell (c : Cell) : Cell :=
  match c with
  | Cell.num q => Cell.num q
  | Cell.na => Cell.na
  | Cell.str s =>
    match parseNumStr s with
    | some n => Cell.num (n : ℚ)
    | none => Cell.na

/-- A column already has a numeric pandas dtype iff it holds no text cell. -/
def isNumericDtype (col : List Cell) : Bool :=
  col.all (fun c => match c with
    | Cell.str _ => false
    | _ => true)

/-- `series.map(lexicon)`: text found in the lexicon becomes its ordinal,
anything else (missing, numeric, unknown text) becomes `NaN`. -/
def mapLexicon (lex : String → Option ℚ) (col : List Cell) : List Cell :=
  col.map (fun c =>
    match c with
    | Cell.str s =>
      match lex s with
      | some q => Cell.num q
      | none => Cell.na
    | _ => Cell.na)

/-- `series.notna().sum()`: the number of non-missing cells. -/
def notnaCount (col : List Cell) : ℕ :=
  (col.filter (fun c => !(c == Cell.na))).length

/-- Whether a cell is an originally-non-missing value that the lexicon maps
successfully (only text cells can map). -/
def strCellMaps (lex : String → Option ℚ) (c : Cell) : Bool :=
  match c with
  | Cell.str s => (lex s).isSome
  | _ => false

/-- Number of originally-non-missing values the lexicon maps successfully. -/
def lexSuccessCount (lex : String → Option ℚ) (col : List Cell) : ℕ :=
  (col.filter (strCellMaps lex)).length

/-- The per-column body of `encode_likert` from `loader.py`: numeric columns
pass through; a column where any value parses numerically adopts the numeric
interpretation; otherwise the agree lexicon is tried, with a fallback to the
degree lexicon when fewer than half of the non-missing values mapped. -/
def encode_likert_col (col : List Cell) : List Cell :=
  if isNumericDtype col then col
  else if (col.map parseNumCell).any (fun c => !(c == Cell.na)) then
    col.map parseNumCell
  else if (notnaCount (mapLexicon likertAgreeMap col) : ℚ) < (notnaCount col : ℚ) * (1/2) then
    mapLexicon likertDegreeMap col
  else mapLexicon likertAgreeMap col

/-- Numeric view of one cell of an encoded column (`NaN`-aware). -/
def cellToNum (c : Cell) : Option ℚ :=
  match c with
  | Cell.num q => some q
  | _ => none

/-- The numeric view of column `col` of the table, one entry per row. -/
def numSeries (df : Df) (col : String) : List (Option ℚ) :=
  df.rows.map (fun r => cellToNum (getCell r col))

/-- `df[item].dropna()`: the non-missing encoded values of an item. -/
def validValues (df : Df) (item : String) : List ℚ :=
  (numSeries df item).filterMap id

/-- Insertion into a sorted rational list (ascending). -/
def insertQ (x : ℚ) : List ℚ → List ℚ
  | [] => [x]
  | y :: ys => if x ≤ y then x :: y :: ys else y :: insertQ x ys

/-- Ascending sort of a rational list. -/
def sortQ : List ℚ → List ℚ
  | [] => []
  | x :: xs => insertQ x (sortQ xs)

/-- The pandas `Series.median` of a list of values: middle of the sorted
list, or the mean of the two middle values for even length. -/
def medianOf (xs : List ℚ) : ℚ :=
  let s := sortQ xs
  if s.length % 2 = 1 then s.getD (s.length / 2) 0
  else (s.getD (s.length / 2 - 1) 0 + s.getD (s.length / 2) 0) / 2

/-- The highest frequency attained by any value of the list. -/
def maxCount (xs : List ℚ) : ℕ :=
  (xs.map (fun v => xs.count v)).foldr max 0

/-- Minimum of a (possibly empty) rational list. -/
def listMin (l : List ℚ) : Option ℚ :=
  match l with
  | [] => none
  | x :: xs => some (xs.foldr min x)

/-- The pandas `Series.mode().iloc[0]` access used by `compute_descriptives`:
`mode()` returns the most frequent values sorted ascending, so element 0 is
the smallest value with maximal frequency (`none` on an empty series). -/
def pandasMode (xs : List ℚ) : Option ℚ :=
  listMin ((xs.dedup).filter (fun v => xs.count v == maxCount xs))

/-- Descriptive statistics for a single item (`DescriptiveRow` in
`analysis.py`); the `np.nan` median sentinel of the `n == 0` case is
modelled with `none`. -/
structure DescriptiveRow where
  item_id : String
  n : ℕ
  missing_pct : ℚ
  median : Option ℚ
  mode : Option ℚ
  pct_1 : ℚ
  pct_2 : ℚ
  pct_3 : ℚ
  pct_4 : ℚ
  pct_5 : ℚ
  flagged_missingness : Bool
deriving DecidableEq

/-- The loop body of `compute_descriptives` from `analysis.py` for one item. -/
def descriptiveRow (df : Df) (flag_threshold : ℚ) (item : String) : DescriptiveRow :=
  let total_n := df.rows.length
  let valid := validValues df item
  let n := valid.length
  let missing_pct : ℚ := if 0 < total_n then (((total_n - n : ℕ) : ℚ) / (total_n : ℚ)) else 0
  if 0 < n then
    { item_id := item
      n := n
      missing_pct := missing_pct
      median := some (medianOf valid)
      mode := pandasMode valid
      pct_1 := ((valid.count 1 : ℕ) : ℚ) / (n : ℚ)
      pct_2 := ((valid.count 2 : ℕ) : ℚ) / (n : ℚ)
      pct_3 := ((valid.count 3 : ℕ) : ℚ) / (n : ℚ)
      pct_4 := ((valid.count 4 : ℕ) : ℚ) / (n : ℚ)
      pct_5 := ((valid.count 5 : ℕ) : ℚ) / (n : ℚ)
      flagged_missingness := decide (flag_threshold < missing_pct) }
  else
    { item_id := item
      n := n
      missing_pct := missing_pct
      median := none
      mode := none
      pct_1 := 0
      pct_2 := 0
      pct_3 := 0
      pct_4 := 0
      pct_5 := 0
      flagged_missingness := decide (flag_threshold < missing_pct) }

/-- `compute_descriptives` from `analysis.py`: one row per item, in order. -/
def compute_descriptives (df : Df) (items : List String) (flag_threshold : ℚ) :
    List DescriptiveRow :=
  items.map (descriptiveRow df flag_threshold)

/-- Sum of the five per-level proportions of a descriptive row. -/
def pctSum (r : DescriptiveRow) : ℚ :=
  r.pct_1 + r.pct_2 + r.pct_3 + r.pct_4 + r.pct_5

/-- Placeholder row used for out-of-range list access in closed statements. -/
def dummyDescriptiveRow : DescriptiveRow :=
  { item_id := ""
    n := 0
    missing_pct := 0
    median := none
    mode := none
    pct_1 := 0
    pct_2 := 0
    pct_3 := 0
    pct_4 := 0
    pct_5 := 0
    flagged_missingness := false }

/-- First row of a descriptive result list. -/
def firstRow (rs : List DescriptiveRow) : DescriptiveRow :=
  rs.getD 0 dummyDescriptiveRow

/-- Concrete one-item, one-row table whose single encoded value is 7
(an already-numeric column passes through the encoder unchanged, so
out-of-range values do reach the descriptive engine). -/
def dfC4 : Df :=
  { cols := ["i"], rows := [[("i", Cell.num 7)]] }

/-- Concrete column (all text, nothing numeric-parseable) on which the
agree lexicon maps only 1 of 3 non-missing values, forcing the
degree-lexicon fallback. -/
def colC8 : List Cell :=
  [Cell.str "Wcale", Cell.str "W małym stopniu", Cell.str "Zdecydowanie się zgadzam"]

/-- Concrete table for the descriptive witnesses: values 1, 2, 2 and one
missing cell in the single item column. -/
def dfDescW : Df :=
  { cols := ["i"]
    rows :=
      [ [("i", Cell.num 1)]
      , [("i", Cell.num 2)]
      , [("i", Cell.num 2)]
      , [("i", Cell.na)] ] }

/-- Result of a confirmatory test (`ConfirmatoryResult` in `analysis.py`). -/
structure ConfirmatoryResult where
  test_id : String
  dv : String
  iv : Option String
  statistic : Option ℚ
  p : Option ℚ
  p_adj : Option ℚ
  effect_size : Option ℚ
  n : ℕ
  note : String
deriving DecidableEq

/-- Placeholder result used for out-of-range list access in closed statements. -/
def dummyResult : ConfirmatoryResult :=
  { test_id := ""
    dv := ""
    iv := none
    statistic := none
    p := none
    p_adj := none
    effect_size := none
    n := 0
    note := "" }

/-- Lexicographic comparison of character lists by code point, the order
underlying Python/pandas string comparison. -/
def charListLt : List Char → List Char → Bool
  | [], [] => false
  | [], _ :: _ => true
  | _ :: _, [] => false
  | a :: as, b :: bs =>
    if a.val < b.val then true
    else if b.val < a.val then false
    else charListLt as bs

/-- Ordering on group-key cells: numbers by value, strings lexicographically
(mixed-type grouping columns do not occur in the data). -/
def cellLe (a b : Cell) : Bool :=
  match a, b with
  | Cell.na, _ => true
  | _, Cell.na => false
  | Cell.num p, Cell.num q => decide (p ≤ q)
  | Cell.num _, Cell.str _ => true
  | Cell.str _, Cell.num _ => false
  | Cell.str s, Cell.str t => !(charListLt t.data s.data)

/-- Insertion into a key-sorted cell list. -/
def insertCell (x : Cell) : List Cell → List Cell
  | [] => [x]
  | y :: ys => if cellLe x y then x :: y :: ys else y :: insertCell x ys

/-- Ascending sort of cell keys. -/
def sortCells : List Cell → List Cell
  | [] => []
  | x :: xs => insertCell x (sortCells xs)

/-- `df.groupby(iv)` keys: the distinct non-missing values of the grouping
column, ascending (pandas sorts group keys by default and drops `NaN`). -/
def groupKeys (df : Df) (iv : String) : List Cell :=
  sortCells (((df.rows.map (fun r => getCell r iv)).filter (fun c => !(c == Cell.na))).dedup)

/-- `df.groupby(iv)[dv].apply(list).to_dict()`: for each group key, the dv
values of the group's rows in row order, viewed numerically. -/
def groupsOf (df : Df) (iv dv : String) : List (Cell × List (Option ℚ)) :=
  (groupKeys df iv).map (fun k =>
    (k, (df.rows.filter (fun r => getCell r iv == k)).map (fun r => cellToNum (getCell r dv))))

/-- The qualifying groups of the kruskal_wallis branch: non-missing dv
values per group, keeping only groups with at least `minN` of them. -/
def qualifyingGroups (df : Df) (iv dv : String) (minN : ℕ) : List (List ℚ) :=
  ((groupsOf df iv dv).map (fun g => g.2.filterMap id)).filter (fun g => minN ≤ g.length)

/-- Rendering of a group key inside the Mann-Whitney note text. -/
def cellToString (c : Cell) : String :=
  match c with
  | Cell.na => "nan"
  | Cell.num q => toString q.num
  | Cell.str s => s

/-- The soft-failure result for a missing (or falsy) grouping column. -/
def ivNotFoundResult (t : ConfirmatoryTest) : ConfirmatoryResult :=
  { test_id := t.id
    dv := t.dv
    iv := t.iv_grouping
    statistic := none
    p := none
    p_adj := none
    effect_size := none
    n := 0
    note := "IV column not found" }

/-- The loop body of `run_confirmatory_tests` from `analysis.py` for one
declared test.  `mwu`/`kw` are the external SciPy statistics
(`stats.mannwhitneyu` two-sided and `stats.kruskal`), returning a
(statistic, p-value) pair.  The `Except.error` cases are the uncaught
Python exceptions of the source (the pandas `KeyError` on a missing dv
column in the grouped branches). -/
def runTest (df : Df) (minN : ℕ)
    (mwu : List ℚ → List ℚ → ℚ × ℚ) (kw : List (List ℚ) → ℚ × ℚ)
    (t : ConfirmatoryTest) : Except String ConfirmatoryResult :=
  match t.test_type with
  | TestType.descriptive =>
    if df.cols.contains t.dv then
      Except.ok
        { test_id := t.id
          dv := t.dv
          iv := none
          statistic :=
            if 0 < (validValues df t.dv).length then some (medianOf (validValues df t.dv))
            else none
          p := none
          p_adj := none
          effect_size := none
          n := (validValues df t.dv).length
          note := "Descriptive only (median)" }
    else
      Except.ok
        { test_id := t.id
          dv := t.dv
          iv := none
          statistic := none
          p := none
          p_adj := none
          effect_size := none
          n := 0
          note := "DV column not found: " ++ t.dv }
  | TestType.mann_whitney =>
    match t.iv_grouping with
    | some iv =>
      if iv ≠ "" ∧ df.cols.contains iv then
        if df.cols.contains t.dv then
          match groupsOf df iv t.dv with
          | [(k1, v1), (k2, v2)] =>
            if minN ≤ (v1.filterMap id).length ∧ minN ≤ (v2.filterMap id).length then
              Except.ok
                { test_id := t.id
                  dv := t.dv
                  iv := some iv
                  statistic := some (mwu (v1.filterMap id) (v2.filterMap id)).1
                  p := some (mwu (v1.filterMap id) (v2.filterMap id)).2
                  p_adj := none
                  effect_size :=
                    some (1 - (2 * (mwu (v1.filterMap id) (v2.filterMap id)).1) /
                      (((v1.filterMap id).length : ℚ) * ((v2.filterMap id).length : ℚ)))
                  n := (v1.filterMap id).length + (v2.filterMap id).length
                  note := "Mann-Whitney U (groups: " ++ cellToString k1 ++ " vs "
                    ++ cellToString k2 ++ ")" }
            else
              Except.ok
                { test_id := t.id
                  dv := t.dv
                  iv := some iv
                  statistic := none
                  p := none
                  p_adj := none
                  effect_size := none
                  n := (v1.filterMap id).length + (v2.filterMap id).length
                  note := "Skipped: group n < " ++ toString minN }
          | gs =>
            Except.ok
              { test_id := t.id
                dv := t.dv
                iv := some iv
                statistic := none
                p := none
                p_adj := none
                effect_size := none
                n := 0
                note := "Mann-Whitney requires exactly 2 groups, found " ++ toString gs.length }
        else Except.error ("Column not found: " ++ t.dv)
      else Except.ok (ivNotFoundResult t)
    | none => Except.ok (ivNotFoundResult t)
  | TestType.kruskal_wallis =>
    match t.iv_grouping with
    | some iv =>
      if iv ≠ "" ∧ df.cols.contains iv then
        if df.cols.contains t.dv then
          if 2 ≤ (qualifyingGroups df iv t.dv minN).length then
            Except.ok
              { test_id := t.id
                dv := t.dv
                iv := some iv
                statistic := some (kw (qualifyingGroups df iv t.dv minN)).1
                p := some (kw (qualifyingGroups df iv t.dv minN)).2
                p_adj := none
                effect_size :=
                  match (if 1 < ((qualifyingGroups df iv t.dv minN).map List.length).sum then
                    some ((kw (qualifyingGroups df iv t.dv minN)).1 /
                      ((((qualifyingGroups df iv t.dv minN).map List.length).sum : ℚ) - 1))
                  else none) with
                  | some e => if e = 0 then none else some e
                  | none => none
                n := ((qualifyingGroups df iv t.dv minN).map List.length).sum
                note := "Kruskal-Wallis (" ++ toString (qualifyingGroups df iv t.dv minN).length
                  ++ " groups)" }
          else
            Except.ok
              { test_id := t.id
                dv := t.dv
                iv := some iv
                statistic := none
                p := none
                p_adj := none
                effect_size := none
                n := 0
                note := "Skipped: fewer than 2 groups with n >= " ++ toString minN }
        else Except.error ("Column not found: " ++ t.dv)
      else Except.ok (ivNotFoundResult t)
    | none => Except.ok (ivNotFoundResult t)

/-- The placeholder emitted when no confirmatory test is configured. -/
def noTestsPlaceholder (df : Df) : ConfirmatoryResult :=
  { test_id := "none"
    dv := "N/A"
    iv := none
    statistic := none
    p := none
    p_adj := none
    effect_size := none
    n := df.rows.length
    note := "No confirmatory tests defined" }

/-- The `for test in config.confirmatory_tests` loop of
`run_confirmatory_tests`: appends one result per test, with the first
uncaught exception aborting the whole run. -/
def runTests (df : Df) (minN : ℕ)
    (mwu : List ℚ → List ℚ → ℚ × ℚ) (kw : List (List ℚ) → ℚ × ℚ) :
    List ConfirmatoryTest → Except String (List ConfirmatoryResult)
  | [] => Except.ok []
  | t :: ts =>
    match runTest df minN mwu kw t with
    | Except.error e => Except.error e
    | Except.ok r =>
      match runTests df minN mwu kw ts with
      | Except.error e => Except.error e
      | Except.ok rs => Except.ok (r :: rs)

/-- `run_confirmatory_tests` from `analysis.py`. -/
def run_confirmatory_tests (df : Df) (config : AnalysisPlan)
    (mwu : List ℚ → List ℚ → ℚ × ℚ) (kw : List (List ℚ) → ℚ × ℚ) :
    Except String (List ConfirmatoryResult) :=
  if config.confirmatory_tests.isEmpty then Except.ok [noTestsPlaceholder df]
  else runTests df config.gating_thresholds.min_group_n mwu kw config.confirmatory_tests

/-- Precondition under which a test's branch never reaches the uncaught
pandas `KeyError`: whenever a grouped test would reach the group lookup
(present, non-empty grouping column), its dv column is present too. -/
def groupTestDvOk (df : Df) (t : ConfirmatoryTest) : Bool :=
  match t.test_type, t.iv_grouping with
  | TestType.descriptive, _ => true
  | _, none => true
  | _, some iv =>
    if iv ≠ "" ∧ df.cols.contains iv then df.cols.contains t.dv else true

/-- Stand-in for the external SciPy statistic functions at concrete
inputs where they return a zero statistic with p-value 1 (for example,
`stats.kruskal([1,2],[1,2]) == (0.0, 1.0)`). -/
def mwuZero : List ℚ → List ℚ → ℚ × ℚ := fun _ _ => (0, 1)

/-- Stand-in for `stats.kruskal` at inputs with identical mean ranks,
where the H statistic is exactly 0 (e.g. `stats.kruskal([1,2],[1,2])`). -/
def kwZero : List (List ℚ) → ℚ × ℚ := fun _ => (0, 1)

/-- Prefix-maximum accumulation (`np.maximum.accumulate`), auxiliary. -/
def cummaxAux (acc : ℚ) : List ℚ → List ℚ
  | [] => []
  | x :: xs => max acc x :: cummaxAux (max acc x) xs

/-- Prefix maxima of a list (`np.maximum.accumulate`). -/
def npCummax : List ℚ → List ℚ
  | [] => []
  | x :: xs => x :: cummaxAux x xs

/-- Suffix minima of a list (`np.minimum.accumulate(arr[::-1])[::-1]`). -/
def suffixMins : List ℚ → List ℚ
  | [] => []
  | x :: xs =>
    match suffixMins xs with
    | [] => [x]
    | m :: ms => min x m :: m :: ms

/-- Insertion into a p-value-sorted (index, p) list. -/
def insertPair (x : ℕ × ℚ) : List (ℕ × ℚ) → List (ℕ × ℚ)
  | [] => [x]
  | y :: ys => if x.2 ≤ y.2 then x :: y :: ys else y :: insertPair x ys

/-- Sort (index, p) pairs ascending by p — the `np.argsort` sort of
`multipletests` (tied p-values all receive the same adjusted value, so the
tie order of `argsort` is immaterial). -/
def sortPairs : List (ℕ × ℚ) → List (ℕ × ℚ)
  | [] => []
  | x :: xs => insertPair x (sortPairs xs)

/-- Attach original positions to the raw p-value vector. -/
def withIdx (l : List ℚ) : List (ℕ × ℚ) :=
  (List.range l.length).zip l

/-- Adjusted p-values over the ascending-sorted vector, before clipping
(statsmodels `multipletests`): bonferroni multiplies by the test count m;
holm takes prefix maxima of `(m - i) * p_(i)`; bh takes suffix minima of
`p_(i) * m / (i+1)`. -/
def adjRaw (method : FdrMethod) (m : ℕ) (sps : List ℚ) : List ℚ :=
  match method with
  | FdrMethod.bonferroni => sps.map (fun p => p * m)
  | FdrMethod.holm => npCummax (sps.mapIdx (fun i p => ((m - i : ℕ) : ℚ) * p))
  | FdrMethod.bh => suffixMins (sps.mapIdx (fun i p => p * m / ((i : ℚ) + 1)))

/-- Clip adjusted values at 1 (`pvals_corrected[pvals_corrected > 1] = 1`). -/
def clipAt1 (l : List ℚ) : List ℚ :=
  l.map (fun q => min q 1)

/-- Read the adjusted value written back to original position `k`
(`pvals_corrected_[sortind] = pvals_corrected`). -/
def unsortAt (pairs : List (ℕ × ℚ)) (k : ℕ) : ℚ :=
  ((pairs.find? (fun pr => pr.1 == k)).getD (k, 0)).2

/-- statsmodels `multipletests(p_values, method=...)[1]`: sort, adjust,
clip at 1, and write each adjusted value back to its original position. -/
def multipletestsAdj (method : FdrMethod) (ps : List ℚ) : List ℚ :=
  (List.range ps.length).map
    (unsortAt (((sortPairs (withIdx ps)).map Prod.fst).zip
      (clipAt1 (adjRaw method ps.length ((sortPairs (withIdx ps)).map Prod.snd)))))

/-- The write-back loop of `apply_fdr_correction`: walk the results in
order, pairing the i-th non-null raw p-value with the i-th adjusted value
(`p_idx` bookkeeping). -/
def writeBack : List ConfirmatoryResult → List ℚ → List ConfirmatoryResult
  | [], _ => []
  | r :: rs, adj =>
    match r.p with
    | none => r :: writeBack rs adj
    | some _ =>
      match adj with
      | [] => r :: writeBack rs []
      | a :: rest => { r with p_adj := some a } :: writeBack rs rest

/-- The `p_adj = p` identity pass of the zero-or-one p-value case. -/
def selfAdjust (r : ConfirmatoryResult) : ConfirmatoryResult :=
  match r.p with
  | some p => { r with p_adj := some p }
  | none => r

/-- `apply_fdr_correction` from `analysis.py`. -/
def apply_fdr_correction (results : List ConfirmatoryResult) (config : AnalysisPlan) :
    List ConfirmatoryResult :=
  if (results.filterMap ConfirmatoryResult.p).length ≤ 1 then results.map selfAdjust
  else
    writeBack results
      (multipletestsAdj config.fdr_settings.method (results.filterMap ConfirmatoryResult.p))

/-- Equality of confirmatory results on every field except `p_adj`. -/
def sameExceptPAdj (a b : ConfirmatoryResult) : Prop :=
  a.test_id = b.test_id ∧ a.dv = b.dv ∧ a.iv = b.iv ∧ a.statistic = b.statistic ∧
    a.p = b.p ∧ a.effect_size = b.effect_size ∧ a.n = b.n ∧ a.note = b.note

/-- Concrete plan used to instantiate witnesses. -/
def planW : AnalysisPlan :=
  { version := "1.0"
    items_universe := ["q1"]
    item_labels := []
    qa_filters :=
      { age_column := "age"
        age_keep_value := "18-25"
        attention_check_column := "att"
        attention_check_expected := "ok" }
    indices := []
    correlations := { scope := Scope.all_items, items_explicit := [] }
    confirmatory_tests := []
    gating_thresholds := { min_group_n := 2 }
    missingness_rules := { flag_threshold := 1/5 }
    fdr_settings := { q := 1/20, method := FdrMethod.bh }
    charts := [{ id := "A_main", type := ChartType.diverging_bar, items := ["q1"] }] }

/-- Concrete table used to instantiate the loader witness: three rows, the
second fails the age gate and the third fails the attention gate. -/
def dfW : Df :=
  { cols := ["age", "att", "q1"]
    rows :=
      [ [("age", Cell.str "18-25"), ("att", Cell.str "ok"), ("q1", Cell.num 3)]
      , [("age", Cell.str "26-35"), ("att", Cell.str "ok"), ("q1", Cell.num 4)]
      , [("age", Cell.str "18-25"), ("att", Cell.str "no"), ("q1", Cell.num 5)] ] }

/-- Mann-Whitney test configuration on dv "y" grouped by "g". -/
def tMW : ConfirmatoryTest :=
  { id := "t1", dv := "y", iv_grouping := some "g", test_type := TestType.mann_whitney }

/-- Kruskal-Wallis test configuration on dv "y" grouped by "g". -/
def tKW : ConfirmatoryTest :=
  { id := "t1", dv := "y", iv_grouping := some "g", test_type := TestType.kruskal_wallis }

/-- Descriptive test configuration on dv "y". -/
def tDesc : ConfirmatoryTest :=
  { id := "d1", dv := "y", iv_grouping := none, test_type := TestType.descriptive }

/-- Table with only the grouping column: the dv column "y" is absent. -/
def dfC1 : Df :=
  { cols := ["g"]
    rows := [[("g", Cell.str "a")], [("g", Cell.str "b")]] }

/-- Plan with a single Mann-Whitney test (grouping column present in
`dfC1`, dv column absent). -/
def cfgC1 : AnalysisPlan := { planW with confirmatory_tests := [tMW] }

/-- Table with two groups of dv values [1,2] and [1,2]; SciPy's H statistic
is exactly 0 on it (all group mean ranks are equal). -/
def dfC2 : Df :=
  { cols := ["g", "y"]
    rows :=
      [ [("g", Cell.str "a"), ("y", Cell.num 1)]
      , [("g", Cell.str "a"), ("y", Cell.num 2)]
      , [("g", Cell.str "b"), ("y", Cell.num 1)]
      , [("g", Cell.str "b"), ("y", Cell.num 2)] ] }

/-- Plan with a single Kruskal-Wallis test (`min_group_n = 2`). -/
def cfgC2 : AnalysisPlan := { planW with confirmatory_tests := [tKW] }

/-- Plan with one descriptive and one Mann-Whitney test, all columns
present in `dfC2`. -/
def cfgW1 : AnalysisPlan := { planW with confirmatory_tests := [tDesc, tMW] }

/-- Table whose grouping column has three groups while the dv column holds
six non-missing observations. -/
def dfC10 : Df :=
  { cols := ["g", "y"]
    rows :=
      [ [("g", Cell.str "a"), ("y", Cell.num 1)]
      , [("g", Cell.str "a"), ("y", Cell.num 2)]
      , [("g", Cell.str "b"), ("y", Cell.num 3)]
      , [("g", Cell.str "b"), ("y", Cell.num 4)]
      , [("g", Cell.str "c"), ("y", Cell.num 5)]
      , [("g", Cell.str "c"), ("y", Cell.num 1)] ] }

/-- First result of a confirmatory run (for closed statements). -/
def firstConfirmatory (e : Except String (List ConfirmatoryResult)) : ConfirmatoryResult :=
  match e with
  | Except.ok (r :: _) => r
  | _ => dummyResult

/-- Concrete confirmatory result with raw p-value 1. -/
def resA : ConfirmatoryResult := { dummyResult with test_id := "a", p := some 1 }

/-- Concrete confirmatory result with raw p-value 0. -/
def resB : ConfirmatoryResult := { dummyResult with test_id := "b", p := some 0 }

/-- Concrete confirmatory result with no p-value (a soft failure). -/
def resC : ConfirmatoryResult := { dummyResult with test_id := "c", p := none }

/-- Claim C5: for every input table accepted by the loader, the retained
row counts are monotonically non-increasing:
`n_total ≥ n_after_age ≥ n_after_attention`. -/
theorem c5_row_count_monotonicity (config : AnalysisPlan) (df : Df) (res : LoadResult)
    (h : load_and_filter config df = Except.ok res) :
    res.n_after_attention ≤ res.n_after_age ∧ res.n_after_age ≤ res.n_total := by
  unfold load_and_filter at h
  split at h
  · exact absurd h (by simp)
  · dsimp only at h
    split at h
    · exact absurd h (by simp)
    · split at h
      · exact absurd h (by simp)
      · cases h
        exact ⟨List.length_filter_le _ _, List.length_filter_le _ _⟩

/-- Witness for C5: the loader accepts `dfW` under `planW` and the counts
3 ≥ 2 ≥ 1 are monotone. -/
theorem c5_row_count_monotonicity_witness :
    ∃ res, load_and_filter planW dfW = Except.ok res ∧
      (res.n_after_attention ≤ res.n_after_age ∧ res.n_after_age ≤ res.n_total) :=
  ⟨_, rfl, c5_row_count_monotonicity planW dfW _ rfl⟩

/-- Helper: mapping a column through a lexicon leaves exactly the successful
mappings non-missing. -/
theorem notnaCount_mapLexicon (lex : String → Option ℚ) (col : List Cell) :
    notnaCount (mapLexicon lex col) = lexSuccessCount lex col := by
  unfold notnaCount lexSuccessCount mapLexicon
  rw [← List.countP_eq_length_filter, ← List.countP_eq_length_filter, List.countP_map]
  refine List.countP_congr ?_
  intro c _
  cases c with
  | na => simp [Function.comp, strCellMaps]
  | num q => simp [Function.comp, strCellMaps]
  | str s =>
    simp only [Function.comp, strCellMaps]
    cases lex s <;> simp

/-- Helper: the source's floating comparison `count < total * 0.5` is the
strict "fewer than half" condition. -/
theorem half_lt_iff (a b : ℕ) : ((a : ℚ) < (b : ℚ) * (1/2)) ↔ 2 * a < b := by
  rw [show ((b : ℚ) * (1/2)) = (b : ℚ) / 2 by ring, lt_div_iff₀ (by norm_num : (0:ℚ) < 2)]
  constructor
  · intro h
    have : ((a * 2 : ℕ) : ℚ) < ((b : ℕ) : ℚ) := by push_cast; linarith
    have := Nat.cast_lt.mp this
    omega
  · intro h
    have : ((a * 2 : ℕ) : ℚ) < ((b : ℕ) : ℚ) := by exact_mod_cast (by omega : a * 2 < b)
    push_cast at this
    linarith

/-- Claim C8: on a non-numeric column with no numerically-parseable value,
the encoder first maps through the agree/disagree lexicon; the degree
lexicon replaces it (applied to the original values, regardless of its own
success rate) exactly when strictly fewer than half of the originally
non-missing values mapped under the agree lexicon. -/
theorem c8_lexicon_fallback (col : List Cell)
    (hdtype : isNumericDtype col = false)
    (hnoparse : ∀ c ∈ col, parseNumCell c = Cell.na) :
    (2 * lexSuccessCount likertAgreeMap col < notnaCount col →
      encode_likert_col col = mapLexicon likertDegreeMap col) ∧
    (notnaCount col ≤ 2 * lexSuccessCount likertAgreeMap col →
      encode_likert_col col = mapLexicon likertAgreeMap col) := by
  have hany : (col.map parseNumCell).any (fun c => !(c == Cell.na)) = false := by
    simp only [List.any_map, List.any_eq_false, Function.comp]
    intro c hc
    simp [hnoparse c hc]
  have hcond : ((notnaCount (mapLexicon likertAgreeMap col) : ℚ) <
      (notnaCount col : ℚ) * (1/2)) ↔
      2 * lexSuccessCount likertAgreeMap col < notnaCount col := by
    rw [notnaCount_mapLexicon]
    exact half_lt_iff _ _
  constructor
  · intro hlt
    unfold encode_likert_col
    rw [if_neg (by simp [hdtype]), if_neg (by simp [hany]), if_pos (hcond.mpr hlt)]
  · intro hge
    unfold encode_likert_col
    rw [if_neg (by simp [hdtype]), if_neg (by simp [hany]), if_neg (by rw [hcond]; omega)]

/-- Witness for C8: on `colC8` only 1 of 3 non-missing values maps under the
agree lexicon, so the fallback fires and the degree mapping is used. -/
theorem c8_lexicon_fallback_witness :
    2 * lexSuccessCount likertAgreeMap colC8 < notnaCount colC8 ∧
    encode_likert_col colC8 = mapLexicon likertDegreeMap colC8 :=
  ⟨by decide, (c8_lexicon_fallback colC8 (by decide) (by decide)).1 (by decide)⟩

/-- Helper: when every value lies on the 1–5 scale, the five level counts
partition the list. -/
theorem count_partition (xs : List ℚ)
    (h : ∀ v ∈ xs, v = 1 ∨ v = 2 ∨ v = 3 ∨ v = 4 ∨ v = 5) :
    xs.count 1 + xs.count 2 + xs.count 3 + xs.count 4 + xs.count 5 = xs.length := by
  induction xs with
  | nil => rfl
  | cons x xs ih =>
    have hx := h x (List.mem_cons_self x xs)
    have ih' := ih (fun v hv => h v (List.mem_cons_of_mem _ hv))
    simp only [List.count_cons, List.length_cons]
    rcases hx with h1 | h2 | h3 | h4 | h5 <;> subst x <;> norm_num <;> omega

/-- Claim C4 (amended): for an item with `n > 0` whose non-missing encoded
values all lie in {1,2,3,4,5}, the five per-level proportions sum to 1
exactly (floats are modelled by exact rationals). -/
theorem c4_proportion_closure (df : Df) (flag_threshold : ℚ) (item : String)
    (hn : 0 < (validValues df item).length)
    (hrange : ∀ v ∈ validValues df item, v = 1 ∨ v = 2 ∨ v = 3 ∨ v = 4 ∨ v = 5) :
    pctSum (descriptiveRow df flag_threshold item) = 1 := by
  unfold descriptiveRow
  rw [if_pos hn]
  unfold pctSum
  simp only
  rw [div_add_div_same, div_add_div_same, div_add_div_same, div_add_div_same]
  rw [show ((((validValues df item).count 1 : ℕ) : ℚ) + (((validValues df item).count 2 : ℕ) : ℚ)
      + (((validValues df item).count 3 : ℕ) : ℚ) + (((validValues df item).count 4 : ℕ) : ℚ)
      + (((validValues df item).count 5 : ℕ) : ℚ))
      = (((validValues df item).count 1 + (validValues df item).count 2
        + (validValues df item).count 3 + (validValues df item).count 4
        + (validValues df item).count 5 : ℕ) : ℚ) by push_cast; ring]
  rw [count_partition _ hrange]
  exact div_self (by exact_mod_cast Nat.pos_iff_ne_zero.mp hn)

/-- Counterexample to C4 as stated: a single encoded value 7 gives a row
with `n = 1 > 0` whose proportions sum to 0, not 1. -/
theorem c4_counterexample :
    0 < (firstRow (compute_descriptives dfC4 ["i"] (1/5))).n ∧
    pctSum (firstRow (compute_descriptives dfC4 ["i"] (1/5))) = 0 := by
  have hv : validValues dfC4 "i" = [7] := by decide
  constructor
  · decide
  · have hfr : firstRow (compute_descriptives dfC4 ["i"] (1/5)) = descriptiveRow dfC4 (1/5) "i" := rfl
    rw [hfr]
    unfold descriptiveRow pctSum
    simp only [hv]
    norm_num [List.count_cons, List.count_nil]

/-- Witness for C4: on values 1, 2, 2 (one missing cell) the proportions
sum to 1. -/
theorem c4_proportion_closure_witness :
    pctSum (descriptiveRow dfDescW (1/5) "i") = 1 :=
  c4_proportion_closure dfDescW (1/5) "i" (by decide) (by decide)

/-- Helper: the folded minimum of `x :: xs` is a member of `x :: xs`. -/
theorem foldr_min_mem (x : ℚ) (xs : List ℚ) : xs.foldr min x ∈ x :: xs := by
  induction xs with
  | nil => simp
  | cons y ys ih =>
    rcases min_choice y (ys.foldr min x) with h | h
    · rw [List.foldr_cons, h]
      simp
    · rw [List.foldr_cons, h]
      rcases List.mem_cons.mp ih with h2 | h2
      · simp [h2]
      · simp [h2]

/-- Helper: the folded minimum of `x :: xs` bounds every member from below. -/
theorem foldr_min_le (x : ℚ) (xs : List ℚ) : ∀ z ∈ x :: xs, xs.foldr min x ≤ z := by
  induction xs with
  | nil =>
    intro z hz
    simp only [List.mem_singleton] at hz
    simp [hz]
  | cons y ys ih =>
    intro z hz
    rw [List.foldr_cons]
    rcases List.mem_cons.mp hz with h | h
    · exact le_trans (min_le_right _ _) (ih z (by simp [h]))
    · rcases List.mem_cons.mp h with h2 | h2
      · subst h2
        exact min_le_left _ _
      · exact le_trans (min_le_right _ _) (ih z (by simp [h2]))

/-- Helper: every member is bounded by the folded maximum. -/
theorem le_foldr_max (l : List ℕ) (x : ℕ) (hx : x ∈ l) : x ≤ l.foldr max 0 := by
  induction l with
  | nil => cases hx
  | cons a as ih =>
    rw [List.foldr_cons]
    rcases List.mem_cons.mp hx with h | h
    · subst h
      exact le_max_left _ _
    · exact le_trans (ih h) (le_max_right _ _)

/-- Helper: the folded maximum is zero or attained by a member. -/
theorem foldr_max_attained (l : List ℕ) : l.foldr max 0 = 0 ∨ l.foldr max 0 ∈ l := by
  induction l with
  | nil => exact Or.inl rfl
  | cons a as ih =>
    rw [List.foldr_cons]
    rcases max_choice a (as.foldr max 0) with h | h
    · right
      rw [h]
      simp
    · rcases ih with h2 | h2
      · right
        rw [h, h2]
        rw [h2] at h
        have ha : a = 0 := by omega
        rw [← ha]
        simp
      · right
        rw [h]
        simp [h2]

/-- Helper: a nonempty list attains its highest value frequency. -/
theorem maxCount_attained (xs : List ℚ) (hne : xs ≠ []) :
    ∃ v ∈ xs, xs.count v = maxCount xs := by
  unfold maxCount
  rcases foldr_max_attained (xs.map (fun v => xs.count v)) with h | h
  · cases xs with
    | nil => exact absurd rfl hne
    | cons x xs' =>
      exfalso
      have hx : 0 < (x :: xs').count x := List.count_pos_iff.mpr (List.mem_cons_self x xs')
      have hle := le_foldr_max ((x :: xs').map (fun v => (x :: xs').count v)) ((x :: xs').count x)
        (List.mem_map_of_mem _ (List.mem_cons_self x xs'))
      omega
  · rcases List.mem_map.mp h with ⟨v, hv, hc⟩
    exact ⟨v, hv, hc⟩

/-- Helper: on a nonempty list, `pandasMode` returns the smallest among the
most frequent values. -/
theorem pandasMode_spec (xs : List ℚ) (hne : xs ≠ []) :
    ∃ m, pandasMode xs = some m ∧ m ∈ xs ∧
      (∀ v ∈ xs, xs.count v ≤ xs.count m) ∧
      (∀ v ∈ xs, xs.count v = xs.count m → m ≤ v) := by
  obtain ⟨v0, hv0, hc0⟩ := maxCount_attained xs hne
  have hv0f : v0 ∈ xs.dedup.filter (fun v => xs.count v == maxCount xs) :=
    List.mem_filter.mpr ⟨List.mem_dedup.mpr hv0, by simp [hc0]⟩
  cases hcand : xs.dedup.filter (fun v => xs.count v == maxCount xs) with
  | nil =>
    rw [hcand] at hv0f
    cases hv0f
  | cons c cs =>
    have hmem : cs.foldr min c ∈ xs.dedup.filter (fun v => xs.count v == maxCount xs) := by
      rw [hcand]
      exact foldr_min_mem c cs
    have hcm : xs.count (cs.foldr min c) = maxCount xs := by
      simpa using (List.mem_filter.mp hmem).2
    refine ⟨cs.foldr min c, ?_, ?_, ?_, ?_⟩
    · unfold pandasMode
      rw [hcand]
      rfl
    · exact List.mem_dedup.mp (List.mem_filter.mp hmem).1
    · intro v hv
      rw [hcm]
      unfold maxCount
      exact le_foldr_max _ _ (List.mem_map_of_mem _ hv)
    · intro v hv hcv
      have hvf : v ∈ xs.dedup.filter (fun v => xs.count v == maxCount xs) :=
        List.mem_filter.mpr ⟨List.mem_dedup.mpr hv, by simp [hcv, hcm]⟩
      rw [hcand] at hvf
      exact foldr_min_le c cs v hvf

/-- Claim C9: for an item with `n > 0`, the reported mode is a most
frequent non-missing value, and ties go to the smallest such value. -/
theorem c9_mode_smallest_tie (df : Df) (flag_threshold : ℚ) (item : String)
    (hn : 0 < (validValues df item).length) :
    ∃ m, (descriptiveRow df flag_threshold item).mode = some m ∧
      m ∈ validValues df item ∧
      (∀ v ∈ validValues df item,
        (validValues df item).count v ≤ (validValues df item).count m) ∧
      (∀ v ∈ validValues df item,
        (validValues df item).count v = (validValues df item).count m → m ≤ v) := by
  have hne : validValues df item ≠ [] := by
    intro h
    rw [h] at hn
    simp at hn
  obtain ⟨m, hm, hmem, hmax, htie⟩ := pandasMode_spec (validValues df item) hne
  refine ⟨m, ?_, hmem, hmax, htie⟩
  simp only [descriptiveRow]
  rw [if_pos hn]
  exact hm

/-- Witness for C9: on values 1, 2, 2 the mode is 2; on the tie the theorem
still applies (counts decide the instance). -/
theorem c9_mode_smallest_tie_witness :
    ∃ m, (descriptiveRow dfDescW (1/5) "i").mode = some m ∧
      m ∈ validValues dfDescW "i" ∧
      (∀ v ∈ validValues dfDescW "i",
        (validValues dfDescW "i").count v ≤ (validValues dfDescW "i").count m) ∧
      (∀ v ∈ validValues dfDescW "i",
        (validValues dfDescW "i").count v = (validValues dfDescW "i").count m → m ≤ v) :=
  c9_mode_smallest_tie dfDescW (1/5) "i" (by decide)

/-- Helper: under the dv-presence precondition the per-test branch always
returns exactly one result and never raises. -/
theorem runTest_ok (df : Df) (minN : ℕ)
    (mwu : List ℚ → List ℚ → ℚ × ℚ) (kw : List (List ℚ) → ℚ × ℚ)
    (t : ConfirmatoryTest) (h : groupTestDvOk df t = true) :
    ∃ r, runTest df minN mwu kw t = Except.ok r := by
  unfold runTest
  cases ht : t.test_type with
  | descriptive =>
    dsimp only
    split
    · exact ⟨_, rfl⟩
    · exact ⟨_, rfl⟩
  | mann_whitney =>
    dsimp only
    cases hiv : t.iv_grouping with
    | none => exact ⟨_, rfl⟩
    | some iv =>
      dsimp only
      by_cases hc : iv ≠ "" ∧ df.cols.contains iv = true
      · have hdv : df.cols.contains t.dv = true := by
          unfold groupTestDvOk at h
          rw [ht, hiv] at h
          dsimp only at h
          rwa [if_pos hc] at h
        rw [if_pos hc, if_pos hdv]
        split
        · split
          · exact ⟨_, rfl⟩
          · exact ⟨_, rfl⟩
        · exact ⟨_, rfl⟩
      · rw [if_neg hc]
        exact ⟨_, rfl⟩
  | kruskal_wallis =>
    dsimp only
    cases hiv : t.iv_grouping with
    | none => exact ⟨_, rfl⟩
    | some iv =>
      dsimp only
      by_cases hc : iv ≠ "" ∧ df.cols.contains iv = true
      · have hdv : df.cols.contains t.dv = true := by
          unfold groupTestDvOk at h
          rw [ht, hiv] at h
          dsimp only at h
          rwa [if_pos hc] at h
        rw [if_pos hc, if_pos hdv]
        split
        · exact ⟨_, rfl⟩
        · exact ⟨_, rfl⟩
      · rw [if_neg hc]
        exact ⟨_, rfl⟩

/-- Helper: the test loop emits exactly one result per test when no branch
raises. -/
theorem runTests_ok (df : Df) (minN : ℕ)
    (mwu : List ℚ → List ℚ → ℚ × ℚ) (kw : List (List ℚ) → ℚ × ℚ)
    (ts : List ConfirmatoryTest)
    (h : ∀ t ∈ ts, groupTestDvOk df t = true) :
    ∃ rs, runTests df minN mwu kw ts = Except.ok rs ∧ rs.length = ts.length := by
  induction ts with
  | nil => exact ⟨[], rfl, rfl⟩
  | cons t ts ih =>
    obtain ⟨r, hr⟩ := runTest_ok df minN mwu kw t (h t (List.mem_cons_self t ts))
    obtain ⟨rs, hrs, hlen⟩ := ih (fun t' ht' => h t' (List.mem_cons_of_mem _ ht'))
    refine ⟨r :: rs, ?_, by simp [hlen]⟩
    simp only [runTests]
    rw [hr, hrs]

/-- Claim C1 (amended): provided every grouped test that reaches the group
lookup has its dv column present, `run_confirmatory_tests` emits exactly
one result per configured test (one placeholder when none are configured)
and never raises; with an absent dv column on a grouped test it raises the
pandas `KeyError` (see the counterexample). -/
theorem c1_one_result_per_test (df : Df) (config : AnalysisPlan)
    (mwu : List ℚ → List ℚ → ℚ × ℚ) (kw : List (List ℚ) → ℚ × ℚ)
    (h : ∀ t ∈ config.confirmatory_tests, groupTestDvOk df t = true) :
    ∃ rs, run_confirmatory_tests df config mwu kw = Except.ok rs ∧
      rs.length =
        (if config.confirmatory_tests.isEmpty then 1 else config.confirmatory_tests.length) := by
  unfold run_confirmatory_tests
  by_cases he : config.confirmatory_tests.isEmpty = true
  · rw [if_pos he, if_pos he]
    exact ⟨_, rfl, rfl⟩
  · rw [if_neg he, if_neg he]
    exact runTests_ok df config.gating_thresholds.min_group_n mwu kw _ h

/-- Counterexample to C1 as stated: a Mann-Whitney test whose grouping
column is present but whose dv column is absent makes the engine raise the
pandas `KeyError` instead of appending a soft-failure result. -/
theorem c1_counterexample :
    run_confirmatory_tests dfC1 cfgC1 mwuZero kwZero =
      Except.error "Column not found: y" := rfl

/-- Witness for C1: two tests with all referenced columns present yield
exactly two results. -/
theorem c1_one_result_per_test_witness :
    ∃ rs, run_confirmatory_tests dfC2 cfgW1 mwuZero kwZero = Except.ok rs ∧
      rs.length =
        (if cfgW1.confirmatory_tests.isEmpty then 1 else cfgW1.confirmatory_tests.length) :=
  c1_one_result_per_test dfC2 cfgW1 mwuZero kwZero (by decide)

/-- Helper: one group entry per group key. -/
theorem groupsOf_length (df : Df) (iv dv : String) :
    (groupsOf df iv dv).length = (groupKeys df iv).length := by
  simp [groupsOf]

/-- Claim C10: the mann_whitney wrong-group-count branch and the
kruskal_wallis too-few-qualifying-groups branch both report `n = 0`
(with null statistic and p), regardless of how many non-missing dv
observations exist, while the mann_whitney below-threshold skip reports
the combined insufficient sample size as `n`. -/
theorem c10_soft_failure_n (df : Df) (minN : ℕ)
    (mwu : List ℚ → List ℚ → ℚ × ℚ) (kw : List (List ℚ) → ℚ × ℚ)
    (t : ConfirmatoryTest) (iv : String) (k1 k2 : Cell) (v1 v2 : List (Option ℚ))
    (hiv : t.iv_grouping = some iv) (hne : iv ≠ "")
    (hicol : df.cols.contains iv = true) (hdcol : df.cols.contains t.dv = true) :
    (t.test_type = TestType.mann_whitney → (groupKeys df iv).length ≠ 2 →
      ∃ r, runTest df minN mwu kw t = Except.ok r ∧
        r.n = 0 ∧ r.statistic = none ∧ r.p = none) ∧
    (t.test_type = TestType.kruskal_wallis → (qualifyingGroups df iv t.dv minN).length < 2 →
      ∃ r, runTest df minN mwu kw t = Except.ok r ∧
        r.n = 0 ∧ r.statistic = none ∧ r.p = none) ∧
    (t.test_type = TestType.mann_whitney → groupsOf df iv t.dv = [(k1, v1), (k2, v2)] →
      ¬(minN ≤ (v1.filterMap id).length ∧ minN ≤ (v2.filterMap id).length) →
      ∃ r, runTest df minN mwu kw t = Except.ok r ∧
        r.n = (v1.filterMap id).length + (v2.filterMap id).length ∧
        r.statistic = none ∧ r.p = none) := by
  refine ⟨?_, ?_, ?_⟩
  · intro htt hk
    have hg2 : (groupsOf df iv t.dv).length ≠ 2 := by
      rw [groupsOf_length]
      exact hk
    unfold runTest
    rw [htt, hiv]
    dsimp only
    rw [if_pos ⟨hne, hicol⟩, if_pos hdcol]
    rcases hG : groupsOf df iv t.dv with _ | ⟨⟨ka, va⟩, _ | ⟨⟨kb, vb⟩, _ | ⟨c3, rest⟩⟩⟩
    · exact ⟨_, rfl, rfl, rfl, rfl⟩
    · exact ⟨_, rfl, rfl, rfl, rfl⟩
    · rw [hG] at hg2
      simp at hg2
    · exact ⟨_, rfl, rfl, rfl, rfl⟩
  · intro htt hq
    unfold runTest
    rw [htt, hiv]
    dsimp only
    rw [if_pos ⟨hne, hicol⟩, if_pos hdcol, if_neg (by omega)]
    exact ⟨_, rfl, rfl, rfl, rfl⟩
  · intro htt hG hlt
    unfold runTest
    rw [htt, hiv]
    dsimp only
    rw [if_pos ⟨hne, hicol⟩, if_pos hdcol, hG]
    dsimp only
    rw [if_neg hlt]
    exact ⟨_, rfl, rfl, rfl, rfl⟩

/-- Witness for C10: three groups under mann_whitney give `n = 0` despite
six non-missing dv values; a too-high threshold under kruskal_wallis gives
`n = 0`; a two-group mann_whitney below threshold gives `n = 4`. -/
theorem c10_soft_failure_n_witness :
    (∃ r, runTest dfC10 2 mwuZero kwZero tMW = Except.ok r ∧
      r.n = 0 ∧ r.statistic = none ∧ r.p = none) ∧
    (∃ r, runTest dfC2 10 mwuZero kwZero tKW = Except.ok r ∧
      r.n = 0 ∧ r.statistic = none ∧ r.p = none) ∧
    (∃ r, runTest dfC2 10 mwuZero kwZero tMW = Except.ok r ∧
      r.n = 4 ∧ r.statistic = none ∧ r.p = none) := by
  refine ⟨?_, ?_, ?_⟩
  · exact (c10_soft_failure_n dfC10 2 mwuZero kwZero tMW "g" Cell.na Cell.na [] []
      rfl (by decide) (by decide) (by decide)).1 rfl (by decide)
  · exact (c10_soft_failure_n dfC2 10 mwuZero kwZero tKW "g" Cell.na Cell.na [] []
      rfl (by decide) (by decide) (by decide)).2.1 rfl (by decide)
  · obtain ⟨r, h1, h2, h3, h4⟩ :=
      (c10_soft_failure_n dfC2 10 mwuZero kwZero tMW "g" (Cell.str "a") (Cell.str "b")
        [some 1, some 2] [some 1, some 2]
        rfl (by decide) (by decide) (by decide)).2.2 rfl (by decide) (by decide)
    exact ⟨r, h1, by rw [h2]; decide, h3, h4⟩

/-- Claim C2 at the failing input: with qualifying groups [1,2] and [1,2]
SciPy returns H = 0 (`stats.kruskal([1,2],[1,2]) == (0.0, 1.0)`); the
engine publishes statistic 0 over n = 4 pooled observations, yet the
effect size is null — `float(epsilon_sq) if epsilon_sq else None` treats
the legitimate value 0.0 as falsy — although the spec requires
epsilon-squared `H/(N-1) = 0` there, with null only for `N ≤ 1`. -/
theorem c2_effect_size_truthiness_bug :
    (firstConfirmatory (run_confirmatory_tests dfC2 cfgC2 mwuZero kwZero)).statistic = some 0 ∧
    (firstConfirmatory (run_confirmatory_tests dfC2 cfgC2 mwuZero kwZero)).p = some 1 ∧
    (firstConfirmatory (run_confirmatory_tests dfC2 cfgC2 mwuZero kwZero)).n = 4 ∧
    (firstConfirmatory (run_confirmatory_tests dfC2 cfgC2 mwuZero kwZero)).effect_size = none := by
  refine ⟨rfl, rfl, rfl, ?_⟩
  have heq : (firstConfirmatory (run_confirmatory_tests dfC2 cfgC2 mwuZero kwZero)).effect_size =
      (if ((0:ℚ) / ((((qualifyingGroups dfC2 "g" "y" 2).map List.length).sum : ℚ) - 1)) = 0
       then none
       else some ((0:ℚ) /
         ((((qualifyingGroups dfC2 "g" "y" 2).map List.length).sum : ℚ) - 1))) := rfl
  have hsum : ((qualifyingGroups dfC2 "g" "y" 2).map List.length).sum = 4 := by decide
  rw [heq, hsum]
  norm_num

/-- Helper: prefix-max accumulation preserves length. -/
theorem length_cummaxAux (acc : ℚ) (l : List ℚ) : (cummaxAux acc l).length = l.length := by
  induction l generalizing acc with
  | nil => rfl
  | cons x xs ih => simp [cummaxAux, ih]

/-- Helper: prefix maxima preserve length. -/
theorem length_npCummax (l : List ℚ) : (npCummax l).length = l.length := by
  cases l with
  | nil => rfl
  | cons x xs => simp [npCummax, length_cummaxAux]

/-- Helper: suffix minima preserve length. -/
theorem length_suffixMins (l : List ℚ) : (suffixMins l).length = l.length := by
  induction l with
  | nil => rfl
  | cons x xs ih =>
    show (match suffixMins xs with
      | [] => [x]
      | m :: ms => min x m :: m :: ms).length = (x :: xs).length
    cases hsm : suffixMins xs with
    | nil =>
      rw [hsm] at ih
      simp only [List.length_nil] at ih
      have hxs : xs = [] := List.length_eq_zero.mp ih.symm
      subst hxs
      rfl
    | cons m ms =>
      rw [hsm] at ih
      simp only [List.length_cons] at ih ⊢
      omega

/-- Helper: insertion preserves the multiset of pairs. -/
theorem perm_insertPair (x : ℕ × ℚ) (l : List (ℕ × ℚ)) : (insertPair x l).Perm (x :: l) := by
  induction l with
  | nil => exact List.Perm.refl _
  | cons y ys ih =>
    rw [insertPair]
    by_cases hxy : x.2 ≤ y.2
    · rw [if_pos hxy]
    · rw [if_neg hxy]
      exact List.Perm.trans (List.Perm.cons y ih) (List.Perm.swap x y ys)

/-- Helper: the sort is a permutation. -/
theorem perm_sortPairs (l : List (ℕ × ℚ)) : (sortPairs l).Perm l := by
  induction l with
  | nil => exact List.Perm.refl _
  | cons x xs ih =>
    rw [sortPairs]
    exact List.Perm.trans (perm_insertPair x (sortPairs xs)) (List.Perm.cons x ih)

/-- Helper: sorted length. -/
theorem length_sortPairs (l : List (ℕ × ℚ)) : (sortPairs l).length = l.length :=
  (perm_sortPairs l).length_eq

/-- Helper: indexing length. -/
theorem length_withIdx (l : List ℚ) : (withIdx l).length = l.length := by
  unfold withIdx
  rw [List.length_zip, List.length_range]
  omega

/-- Helper: insertion preserves sortedness by p-value. -/
theorem pairwise_insertPair (x : ℕ × ℚ) (l : List (ℕ × ℚ))
    (h : List.Pairwise (fun a b : ℕ × ℚ => a.2 ≤ b.2) l) :
    List.Pairwise (fun a b : ℕ × ℚ => a.2 ≤ b.2) (insertPair x l) := by
  induction l with
  | nil => exact List.pairwise_singleton _ _
  | cons y ys ih =>
    have hy := List.pairwise_cons.mp h
    rw [insertPair]
    by_cases hxy : x.2 ≤ y.2
    · rw [if_pos hxy]
      refine List.Pairwise.cons ?_ h
      intro z hz
      rcases List.mem_cons.mp hz with h1 | h1
      · rw [h1]
        exact hxy
      · exact le_trans hxy (hy.1 z h1)
    · rw [if_neg hxy]
      refine List.Pairwise.cons ?_ (ih hy.2)
      intro z hz
      have hmem := (perm_insertPair x ys).mem_iff.mp hz
      rcases List.mem_cons.mp hmem with h1 | h1
      · rw [h1]
        exact le_of_not_le hxy
      · exact hy.1 z h1

/-- Helper: the sorted pair list is sorted by p-value. -/
theorem pairwise_sortPairs (l : List (ℕ × ℚ)) :
    List.Pairwise (fun a b : ℕ × ℚ => a.2 ≤ b.2) (sortPairs l) := by
  induction l with
  | nil => exact List.Pairwise.nil
  | cons x xs ih =>
    rw [sortPairs]
    exact pairwise_insertPair x (sortPairs xs) ih

/-- Helper: membership in the indexed list reads off the original vector. -/
theorem mem_withIdx (l : List ℚ) (k : ℕ) (p : ℚ) (h : (k, p) ∈ withIdx l) :
    k < l.length ∧ l.getD k 0 = p := by
  unfold withIdx at h
  rcases List.mem_iff_getElem.mp h with ⟨j, hj, hje⟩
  have hjl : j < l.length := by
    rw [List.length_zip, List.length_range] at hj
    omega
  rw [List.getElem_zip] at hje
  have h1 : j = k := by
    have := congrArg Prod.fst hje
    simpa [List.getElem_range] using this
  have h2 : l[j] = p := congrArg Prod.snd hje
  subst h1
  refine ⟨hjl, ?_⟩
  rw [List.getD_eq_getElem _ _ hjl]
  exact h2

/-- Helper: every original position occurs in the indexed list. -/
theorem withIdx_mem (l : List ℚ) (k : ℕ) (hk : k < l.length) :
    (k, l.getD k 0) ∈ withIdx l := by
  unfold withIdx
  refine List.mem_iff_getElem.mpr ⟨k, ?_, ?_⟩
  · rw [List.length_zip, List.length_range]
    omega
  · rw [List.getElem_zip, List.getElem_range, List.getD_eq_getElem _ _ hk]

/-- Helper: zipped `getD` under the length bounds. -/
theorem getD_zip_lt {α β : Type} (l1 : List α) (l2 : List β) (j : ℕ)
    (h1 : j < l1.length) (h2 : j < l2.length) (d1 : α) (d2 : β) :
    (l1.zip l2).getD j (d1, d2) = (l1.getD j d1, l2.getD j d2) := by
  rw [List.getD_eq_getElem _ _ (by rw [List.length_zip]; omega),
    List.getD_eq_getElem _ _ h1, List.getD_eq_getElem _ _ h2, List.getElem_zip]

/-- Helper: mapped `getD` under the length bound. -/
theorem getD_map_lt {α β : Type} (f : α → β) (l : List α) (j : ℕ) (hj : j < l.length)
    (d : β) (d' : α) : (l.map f).getD j d = f (l.getD j d') := by
  rw [List.getD_eq_getElem _ _ (by simpa using hj), List.getD_eq_getElem _ _ hj,
    List.getElem_map]

/-- Helper: `mapIdx`ed `getD` under the length bound. -/
theorem getD_mapIdx_lt {α β : Type} (f : ℕ → α → β) (l : List α) (j : ℕ) (hj : j < l.length)
    (d : β) (d' : α) : (l.mapIdx f).getD j d = f j (l.getD j d') := by
  rw [List.getD_eq_getElem _ _ (by simpa [List.length_mapIdx] using hj),
    List.getD_eq_getElem _ _ hj, List.getElem_mapIdx]

/-- Helper: prefix-max accumulation dominates the input pointwise. -/
theorem cummaxAux_ge (acc : ℚ) (l : List ℚ) (j : ℕ) (hj : j < l.length) :
    l.getD j 0 ≤ (cummaxAux acc l).getD j 0 := by
  induction l generalizing acc j with
  | nil => simp at hj
  | cons x xs ih =>
    cases j with
    | zero => simp [cummaxAux]
    | succ j =>
      simp only [cummaxAux, List.getD_cons_succ]
      exact ih (max acc x) j (by simpa using hj)

/-- Helper: prefix maxima dominate the input pointwise. -/
theorem npCummax_ge (l : List ℚ) (j : ℕ) (hj : j < l.length) :
    l.getD j 0 ≤ (npCummax l).getD j 0 := by
  cases l with
  | nil => simp at hj
  | cons x xs =>
    cases j with
    | zero => simp [npCummax]
    | succ j =>
      simp only [npCummax, List.getD_cons_succ]
      exact cummaxAux_ge x xs j (by simpa using hj)

/-- Helper: a bound on a whole suffix bounds the suffix minimum. -/
theorem suffixMins_ge (c : ℚ) (l : List ℚ) (j : ℕ) (hj : j < l.length)
    (h : ∀ i, j ≤ i → i < l.length → c ≤ l.getD i 0) :
    c ≤ (suffixMins l).getD j 0 := by
  induction l generalizing j with
  | nil => simp at hj
  | cons x xs ih =>
    cases hsm : suffixMins xs with
    | nil =>
      have hxs : xs = [] := by
        have := length_suffixMins xs
        rw [hsm] at this
        exact List.length_eq_zero.mp this.symm
      subst hxs
      simp only [suffixMins]
      have hj0 : j = 0 := by
        simp at hj
        omega
      subst hj0
      simpa using h 0 (le_refl 0) (by simp)
    | cons m ms =>
      have hxslen : 0 < xs.length := by
        have := length_suffixMins xs
        rw [hsm] at this
        simp at this
        omega
      simp only [suffixMins, hsm]
      cases j with
      | zero =>
        simp only [List.getD_cons_zero]
        refine le_min ?_ ?_
        · simpa using h 0 (le_refl 0) (by simp)
        · have hm : c ≤ (suffixMins xs).getD 0 0 := by
            refine ih 0 hxslen ?_
            intro i _ hi
            simpa using h (i + 1) (by omega) (by simpa using hi)
          rw [hsm] at hm
          simpa using hm
      | succ j =>
        simp only [List.getD_cons_succ]
        have hm : c ≤ (suffixMins xs).getD j 0 := by
          refine ih j (by simpa using hj) ?_
          intro i hij hi
          simpa using h (i + 1) (by omega) (by simpa using hi)
        rw [hsm] at hm
        exact hm

/-- Helper: the adjusted-vector length matches the sorted input. -/
theorem adjRaw_length (method : FdrMethod) (m : ℕ) (sps : List ℚ) :
    (adjRaw method m sps).length = sps.length := by
  cases method with
  | bh => simp [adjRaw, length_suffixMins, List.length_mapIdx]
  | bonferroni => simp [adjRaw]
  | holm => simp [adjRaw, length_npCummax, List.length_mapIdx]

/-- Helper: each sorted clipped adjusted value dominates its raw sorted
p-value, for every correction method. -/
theorem adjClipped_ge (method : FdrMethod) (m : ℕ) (sps : List ℚ)
    (hm : sps.length = m)
    (hsorted : List.Pairwise (fun a b : ℚ => a ≤ b) sps)
    (hbounds : ∀ q ∈ sps, 0 ≤ q ∧ q ≤ 1)
    (j : ℕ) (hj : j < sps.length) :
    sps.getD j 0 ≤ (clipAt1 (adjRaw method m sps)).getD j 0 := by
  have hjm : j < m := by omega
  have hmem : sps.getD j 0 ∈ sps := by
    rw [List.getD_eq_getElem _ _ hj]
    exact List.getElem_mem hj
  obtain ⟨h0, h1⟩ := hbounds _ hmem
  have hlen : j < (adjRaw method m sps).length := by
    rw [adjRaw_length]
    exact hj
  have hclip : (clipAt1 (adjRaw method m sps)).getD j 0
      = min ((adjRaw method m sps).getD j 0) 1 := by
    unfold clipAt1
    exact getD_map_lt _ _ j hlen 0 0
  rw [hclip]
  refine le_min ?_ h1
  cases method with
  | bonferroni =>
    have hb : (adjRaw FdrMethod.bonferroni m sps).getD j 0 = sps.getD j 0 * m := by
      unfold adjRaw
      exact getD_map_lt _ _ j hj 0 0
    rw [hb]
    refine le_mul_of_one_le_right h0 ?_
    exact_mod_cast Nat.one_le_iff_ne_zero.mpr (by omega)
  | holm =>
    have hterm : (sps.mapIdx (fun i p => ((m - i : ℕ) : ℚ) * p)).getD j 0
        = ((m - j : ℕ) : ℚ) * sps.getD j 0 :=
      getD_mapIdx_lt _ _ j hj 0 0
    have hge := npCummax_ge (sps.mapIdx (fun i p => ((m - i : ℕ) : ℚ) * p)) j
      (by rw [List.length_mapIdx]; exact hj)
    rw [hterm] at hge
    refine le_trans ?_ hge
    refine le_mul_of_one_le_left h0 ?_
    exact_mod_cast (by omega : 1 ≤ m - j)
  | bh =>
    refine suffixMins_ge _ _ j (by rw [List.length_mapIdx]; exact hj) ?_
    intro i hji hi
    rw [List.length_mapIdx] at hi
    have hterm : (sps.mapIdx (fun i p => p * (m : ℚ) / ((i : ℚ) + 1))).getD i 0
        = sps.getD i 0 * (m : ℚ) / ((i : ℚ) + 1) :=
      getD_mapIdx_lt _ _ i hi 0 0
    rw [hterm]
    have hmono : sps.getD j 0 ≤ sps.getD i 0 := by
      rcases Nat.lt_or_ge j i with hlt | hge2
      · have hp := List.pairwise_iff_getElem.mp hsorted j i hj hi hlt
        rw [List.getD_eq_getElem _ _ hj, List.getD_eq_getElem _ _ hi]
        exact hp
      · have hij : i = j := by omega
        rw [hij]
    have hii : sps.getD i 0 ∈ sps := by
      rw [List.getD_eq_getElem _ _ hi]
      exact List.getElem_mem hi
    obtain ⟨hi0, _⟩ := hbounds _ hii
    refine le_trans hmono ?_
    rw [le_div_iff₀ (by positivity : (0:ℚ) < (i : ℚ) + 1)]
    have hcast : ((i : ℚ) + 1) ≤ (m : ℚ) := by
      exact_mod_cast (by omega : i + 1 ≤ m)
    exact mul_le_mul_of_nonneg_left hcast hi0

/-- Helper: the corrector returns one adjusted value per raw p-value. -/
theorem multipletestsAdj_length (method : FdrMethod) (ps : List ℚ) :
    (multipletestsAdj method ps).length = ps.length := by
  unfold multipletestsAdj
  rw [List.length_map, List.length_range]

/-- Helper: each adjusted p-value dominates its raw p-value (for p-values
inside [0, 1]). -/
theorem multipletestsAdj_ge (method : FdrMethod) (ps : List ℚ)
    (hbounds : ∀ q ∈ ps, 0 ≤ q ∧ q ≤ 1) (k : ℕ) (hk : k < ps.length) :
    ps.getD k 0 ≤ (multipletestsAdj method ps).getD k 0 := by
  unfold multipletestsAdj
  set sp := sortPairs (withIdx ps) with hspdef
  set sps := sp.map Prod.snd with hspsdef
  set adj := clipAt1 (adjRaw method ps.length sps) with hadjdef
  set pairs := (sp.map Prod.fst).zip adj with hpairsdef
  have hperm : sp.Perm (withIdx ps) := perm_sortPairs _
  have hsplen : sp.length = ps.length := by
    rw [hspdef, length_sortPairs, length_withIdx]
  have hspslen : sps.length = ps.length := by
    rw [hspsdef, List.length_map, hsplen]
  have hadjlen : adj.length = ps.length := by
    rw [hadjdef]
    unfold clipAt1
    rw [List.length_map, adjRaw_length, hspslen]
  have hpairslen : pairs.length = ps.length := by
    rw [hpairsdef, List.length_zip, List.length_map, hsplen, hadjlen]
    omega
  have hspsbounds : ∀ q ∈ sps, 0 ≤ q ∧ q ≤ 1 := by
    intro q hq
    rcases List.mem_map.mp hq with ⟨pr, hpr, hpre⟩
    have hwi : pr ∈ withIdx ps := hperm.mem_iff.mp hpr
    obtain ⟨hk2, hps⟩ := mem_withIdx ps pr.1 pr.2 hwi
    have hmem : pr.2 ∈ ps := by
      rw [← hps, List.getD_eq_getElem _ _ hk2]
      exact List.getElem_mem hk2
    rw [← hpre]
    exact hbounds _ hmem
  have hspssorted : List.Pairwise (fun a b : ℚ => a ≤ b) sps := by
    rw [hspsdef]
    exact List.Pairwise.map _ (fun a b h => h) (pairwise_sortPairs _)
  have hstepA : ∀ j, j < ps.length → sps.getD j 0 ≤ adj.getD j 0 := by
    intro j hj
    rw [hadjdef]
    exact adjClipped_ge method ps.length sps hspslen hspssorted hspsbounds j
      (by rw [hspslen]; exact hj)
  have hstepB : ∀ pr ∈ pairs, ps.getD pr.1 0 ≤ pr.2 := by
    intro pr hpr
    obtain ⟨j1, hj1, hje1⟩ := List.mem_iff_getElem.mp hpr
    have hj1p : j1 < ps.length := by
      rw [hpairslen] at hj1
      exact hj1
    have hj1sp : j1 < sp.length := by omega
    have hj1adj : j1 < adj.length := by omega
    have hje1' : pairs.getD j1 ((0 : ℕ), (0 : ℚ)) = pr := by
      rw [List.getD_eq_getElem _ _ hj1]
      exact hje1
    rw [hpairsdef, getD_zip_lt (sp.map Prod.fst) adj j1
      (by rw [List.length_map]; exact hj1sp) hj1adj 0 0] at hje1'
    have hfst : (sp.map Prod.fst).getD j1 0 = (sp.getD j1 ((0 : ℕ), (0 : ℚ))).1 :=
      getD_map_lt Prod.fst sp j1 hj1sp 0 ((0 : ℕ), (0 : ℚ))
    have hsnd : sps.getD j1 0 = (sp.getD j1 ((0 : ℕ), (0 : ℚ))).2 := by
      rw [hspsdef]
      exact getD_map_lt Prod.snd sp j1 hj1sp 0 ((0 : ℕ), (0 : ℚ))
    have hspmem : sp.getD j1 ((0 : ℕ), (0 : ℚ)) ∈ withIdx ps := by
      refine hperm.mem_iff.mp ?_
      rw [List.getD_eq_getElem _ _ hj1sp]
      exact List.getElem_mem hj1sp
    obtain ⟨hidx, hval⟩ := mem_withIdx ps (sp.getD j1 ((0 : ℕ), (0 : ℚ))).1
      (sp.getD j1 ((0 : ℕ), (0 : ℚ))).2 hspmem
    have hpr1 : pr.1 = (sp.getD j1 ((0 : ℕ), (0 : ℚ))).1 := by
      rw [← hje1', hfst]
    have hpr2 : pr.2 = adj.getD j1 0 := by
      rw [← hje1']
    rw [hpr1, hpr2, hval, ← hsnd]
    exact hstepA j1 hj1p
  have hmemsp : ((k, ps.getD k 0) : ℕ × ℚ) ∈ sp := hperm.mem_iff.mpr (withIdx_mem ps k hk)
  obtain ⟨j0, hj0, hje0⟩ := List.mem_iff_getElem.mp hmemsp
  have hj0p : j0 < pairs.length := by
    rw [hpairslen]
    omega
  have hfind : ((pairs.find? (fun pr => pr.1 == k)).isSome) = true := by
    refine List.find?_isSome.mpr ⟨pairs.getD j0 ((0 : ℕ), (0 : ℚ)), ?_, ?_⟩
    · rw [List.getD_eq_getElem _ _ hj0p]
      exact List.getElem_mem hj0p
    · have hj0adj : j0 < adj.length := by omega
      rw [hpairsdef, getD_zip_lt (sp.map Prod.fst) adj j0
        (by rw [List.length_map]; omega) hj0adj 0 0]
      have hfst0 : (sp.map Prod.fst).getD j0 0 = (sp.getD j0 ((0 : ℕ), (0 : ℚ))).1 :=
        getD_map_lt Prod.fst sp j0 hj0 0 ((0 : ℕ), (0 : ℚ))
      have hsp0 : sp.getD j0 ((0 : ℕ), (0 : ℚ)) = (k, ps.getD k 0) := by
        rw [List.getD_eq_getElem _ _ hj0]
        exact hje0
      show ((sp.map Prod.fst).getD j0 0 == k) = true
      rw [hfst0, hsp0]
      simp
  obtain ⟨pr, hpr⟩ := Option.isSome_iff_exists.mp hfind
  have hpr1 : pr.1 = k := by
    have hps := List.find?_some hpr
    simpa using hps
  have hprmem : pr ∈ pairs := List.mem_of_find?_eq_some hpr
  have hgoal : ((List.range ps.length).map (unsortAt pairs)).getD k 0 = unsortAt pairs k := by
    rw [List.getD_eq_getElem _ _ (by rw [List.length_map, List.length_range]; exact hk),
      List.getElem_map, List.getElem_range]
  rw [hgoal]
  unfold unsortAt
  rw [hpr]
  simp only [Option.getD_some]
  have := hstepB pr hprmem
  rw [hpr1] at this
  exact this

/-- Helper: write-back unfolding on a null-p head. -/
theorem writeBack_cons_none (r : ConfirmatoryResult) (rs : List ConfirmatoryResult)
    (adj : List ℚ) (hp : r.p = none) :
    writeBack (r :: rs) adj = r :: writeBack rs adj := by
  obtain ⟨tid, dv0, iv0, st0, p0, pa0, ef0, n0, no0⟩ := r
  have hp2 : p0 = none := hp
  subst hp2
  rfl

/-- Helper: write-back unfolding on a non-null-p head with adjusted values
left. -/
theorem writeBack_cons_some (r : ConfirmatoryResult) (rs : List ConfirmatoryResult)
    (a : ℚ) (rest : List ℚ) (q : ℚ) (hp : r.p = some q) :
    writeBack (r :: rs) (a :: rest) = { r with p_adj := some a } :: writeBack rs rest := by
  obtain ⟨tid, dv0, iv0, st0, p0, pa0, ef0, n0, no0⟩ := r
  have hp2 : p0 = some q := hp
  subst hp2
  rfl

/-- Helper: write-back unfolding on a non-null-p head with no adjusted
values left (cannot occur when lengths agree). -/
theorem writeBack_cons_some_nil (r : ConfirmatoryResult) (rs : List ConfirmatoryResult)
    (q : ℚ) (hp : r.p = some q) :
    writeBack (r :: rs) [] = r :: writeBack rs [] := by
  obtain ⟨tid, dv0, iv0, st0, p0, pa0, ef0, n0, no0⟩ := r
  have hp2 : p0 = some q := hp
  subst hp2
  rfl

/-- Helper: the write-back loop preserves length, every field except
`p_adj`, and leaves null-p results untouched entirely. -/
theorem writeBack_frame (results : List ConfirmatoryResult) (adj : List ℚ) :
    (writeBack results adj).length = results.length ∧
    ∀ k, k < results.length →
      sameExceptPAdj ((writeBack results adj).getD k dummyResult) (results.getD k dummyResult) ∧
      ((results.getD k dummyResult).p = none →
        (writeBack results adj).getD k dummyResult = results.getD k dummyResult) := by
  induction results generalizing adj with
  | nil => exact ⟨rfl, fun k hk => absurd hk (by simp)⟩
  | cons r rs ih =>
    cases hp : r.p with
    | none =>
      have hwb : writeBack (r :: rs) adj = r :: writeBack rs adj :=
        writeBack_cons_none r rs adj hp
      rw [hwb]
      obtain ⟨ihlen, ihk⟩ := ih adj
      refine ⟨by simp [ihlen], ?_⟩
      intro k hk
      cases k with
      | zero =>
        exact ⟨⟨rfl, rfl, rfl, rfl, rfl, rfl, rfl, rfl⟩, fun _ => rfl⟩
      | succ k =>
        simp only [List.getD_cons_succ]
        exact ihk k (by simpa using hk)
    | some p0 =>
      cases adj with
      | nil =>
        have hwb : writeBack (r :: rs) [] = r :: writeBack rs [] :=
          writeBack_cons_some_nil r rs p0 hp
        rw [hwb]
        obtain ⟨ihlen, ihk⟩ := ih []
        refine ⟨by simp [ihlen], ?_⟩
        intro k hk
        cases k with
        | zero =>
          exact ⟨⟨rfl, rfl, rfl, rfl, rfl, rfl, rfl, rfl⟩, fun _ => rfl⟩
        | succ k =>
          simp only [List.getD_cons_succ]
          exact ihk k (by simpa using hk)
      | cons a rest =>
        have hwb : writeBack (r :: rs) (a :: rest)
            = { r with p_adj := some a } :: writeBack rs rest :=
          writeBack_cons_some r rs a rest p0 hp
        rw [hwb]
        obtain ⟨ihlen, ihk⟩ := ih rest
        refine ⟨by simp [ihlen], ?_⟩
        intro k hk
        cases k with
        | zero =>
          refine ⟨⟨rfl, rfl, rfl, rfl, rfl, rfl, rfl, rfl⟩, ?_⟩
          intro hnone
          rw [List.getD_cons_zero] at hnone
          rw [hp] at hnone
          exact absurd hnone (by simp)
        | succ k =>
          simp only [List.getD_cons_succ]
          exact ihk k (by simpa using hk)
        
/-- Helper: when every adjusted value dominates its raw p-value positionally,
the write-back publishes a dominating `p_adj` on every non-null-p result. -/
theorem writeBack_ge (results : List ConfirmatoryResult) (adj : List ℚ)
    (hlen : (results.filterMap ConfirmatoryResult.p).length ≤ adj.length)
    (hge : ∀ j, j < (results.filterMap ConfirmatoryResult.p).length →
      (results.filterMap ConfirmatoryResult.p).getD j 0 ≤ adj.getD j 0) :
    ∀ k, k < results.length →
      ∀ p, ((writeBack results adj).getD k dummyResult).p = some p →
        ∃ a, ((writeBack results adj).getD k dummyResult).p_adj = some a ∧ p ≤ a := by
  induction results generalizing adj with
  | nil =>
    intro k hk
    simp at hk
  | cons r rs ih =>
    intro k hk p hpk
    cases hrp : r.p with
    | none =>
      have hwb : writeBack (r :: rs) adj = r :: writeBack rs adj :=
        writeBack_cons_none r rs adj hrp
      have hfm : (r :: rs).filterMap ConfirmatoryResult.p
          = rs.filterMap ConfirmatoryResult.p := by
        rw [List.filterMap_cons]
        rw [show ConfirmatoryResult.p r = none from hrp]
      rw [hwb] at hpk ⊢
      cases k with
      | zero =>
        rw [List.getD_cons_zero] at hpk
        rw [hrp] at hpk
        exact absurd hpk (by simp)
      | succ k =>
        rw [List.getD_cons_succ] at hpk ⊢
        refine ih adj ?_ ?_ k (by simpa using hk) p hpk
        · rw [hfm] at hlen
          exact hlen
        · intro j hj
          have hj' := hge j (by rw [hfm]; exact hj)
          rw [hfm] at hj'
          exact hj'
    | some p0 =>
      have hfm : (r :: rs).filterMap ConfirmatoryResult.p
          = p0 :: rs.filterMap ConfirmatoryResult.p := by
        rw [List.filterMap_cons]
        rw [show ConfirmatoryResult.p r = some p0 from hrp]
      cases adj with
      | nil =>
        rw [hfm] at hlen
        simp at hlen
      | cons a rest =>
        have hwb : writeBack (r :: rs) (a :: rest)
            = { r with p_adj := some a } :: writeBack rs rest :=
          writeBack_cons_some r rs a rest p0 hrp
        rw [hwb] at hpk ⊢
        cases k with
        | zero =>
          rw [List.getD_cons_zero] at hpk ⊢
          have hpp : p = p0 := by
            have hrp2 : r.p = some p := hpk
            rw [hrp] at hrp2
            exact (Option.some.inj hrp2).symm
          refine ⟨a, rfl, ?_⟩
          have h0 := hge 0 (by rw [hfm]; simp)
          rw [hfm] at h0
          simp only [List.getD_cons_zero] at h0
          rw [hpp]
          exact h0
        | succ k =>
          rw [List.getD_cons_succ] at hpk ⊢
          refine ih rest ?_ ?_ k (by simpa using hk) p hpk
          · rw [hfm] at hlen
            simp only [List.length_cons] at hlen
            omega
          · intro j hj
            have hj' := hge (j + 1) (by rw [hfm]; simp only [List.length_cons]; omega)
            rw [hfm] at hj'
            simp only [List.getD_cons_succ] at hj'
            exact hj'

/-- Claim C7: the corrector preserves the list's length and order, changes
only `p_adj`, and leaves results whose `p` is null entirely untouched
(hence their `p_adj` stays null). -/
theorem c7_corrector_frame (results : List ConfirmatoryResult) (config : AnalysisPlan) :
    (apply_fdr_correction results config).length = results.length ∧
    ∀ k, k < results.length →
      sameExceptPAdj ((apply_fdr_correction results config).getD k dummyResult)
        (results.getD k dummyResult) ∧
      ((results.getD k dummyResult).p = none →
        (apply_fdr_correction results config).getD k dummyResult
          = results.getD k dummyResult) := by
  unfold apply_fdr_correction
  split
  · refine ⟨by simp, ?_⟩
    intro k hk
    have hget : (results.map selfAdjust).getD k dummyResult
        = selfAdjust (results.getD k dummyResult) :=
      getD_map_lt selfAdjust results k hk dummyResult dummyResult
    rw [hget]
    unfold selfAdjust
    cases hp : (results.getD k dummyResult).p with
    | none =>
      exact ⟨⟨rfl, rfl, rfl, rfl, rfl, rfl, rfl, rfl⟩, fun _ => rfl⟩
    | some p0 =>
      refine ⟨⟨rfl, rfl, rfl, rfl, hp.symm, rfl, rfl, rfl⟩, ?_⟩
      intro hnone
      exact absurd hnone (by simp)
  · exact writeBack_frame results _

/-- Witness for C7: on a two-result list the corrector keeps all fields of
result 0 except `p_adj`, and leaves the null-p result 1 untouched. -/
theorem c7_corrector_frame_witness :
    sameExceptPAdj ((apply_fdr_correction [resA, resC] planW).getD 0 dummyResult)
      (([resA, resC] : List ConfirmatoryResult).getD 0 dummyResult) ∧
    ((apply_fdr_correction [resA, resC] planW).getD 1 dummyResult
      = ([resA, resC] : List ConfirmatoryResult).getD 1 dummyResult) :=
  ⟨((c7_corrector_frame [resA, resC] planW).2 0 (by decide)).1,
   ((c7_corrector_frame [resA, resC] planW).2 1 (by decide)).2 (by decide)⟩

/-- Claim C6: with more than one non-null raw p-value, every result's
adjusted p-value dominates its raw p-value under each of the bonferroni,
holm and bh methods (the method is `config.fdr_settings.method`, ranging
over all three); with exactly one non-null raw p-value, `p_adj = p`. -/
theorem c6_fdr_monotone (results : List ConfirmatoryResult) (config : AnalysisPlan)
    (hp : ∀ q ∈ results.filterMap ConfirmatoryResult.p, 0 ≤ q ∧ q ≤ 1) :
    (1 < (results.filterMap ConfirmatoryResult.p).length →
      ∀ k, k < results.length →
        ∀ p, ((apply_fdr_correction results config).getD k dummyResult).p = some p →
          ∃ a, ((apply_fdr_correction results config).getD k dummyResult).p_adj = some a ∧
            p ≤ a) ∧
    ((results.filterMap ConfirmatoryResult.p).length = 1 →
      ∀ k, k < results.length →
        ∀ p, ((apply_fdr_correction results config).getD k dummyResult).p = some p →
          ((apply_fdr_correction results config).getD k dummyResult).p_adj = some p) := by
  constructor
  · intro hgt k hk p hpk
    have hnot : ¬ (results.filterMap ConfirmatoryResult.p).length ≤ 1 := by omega
    unfold apply_fdr_correction at hpk ⊢
    rw [if_neg hnot] at hpk ⊢
    refine writeBack_ge results _ ?_ ?_ k hk p hpk
    · rw [multipletestsAdj_length]
    · intro j hj
      exact multipletestsAdj_ge config.fdr_settings.method _ hp j hj
  · intro hone k hk p hpk
    have hle : (results.filterMap ConfirmatoryResult.p).length ≤ 1 := by omega
    unfold apply_fdr_correction at hpk ⊢
    rw [if_pos hle] at hpk ⊢
    have hget : (results.map selfAdjust).getD k dummyResult
        = selfAdjust (results.getD k dummyResult) :=
      getD_map_lt selfAdjust results k hk dummyResult dummyResult
    rw [hget] at hpk ⊢
    unfold selfAdjust at hpk ⊢
    cases hrp : (results.getD k dummyResult).p with
    | none =>
      rw [hrp] at hpk
      dsimp only at hpk
      rw [hrp] at hpk
      exact absurd hpk (by simp)
    | some p0 =>
      rw [hrp] at hpk
      dsimp only at hpk ⊢
      exact hpk

/-- Witness for C6: on p-values [1, 0] (and one null), the first result's
adjusted p-value dominates its raw p-value 1. -/
theorem c6_fdr_monotone_witness :
    ∃ a, ((apply_fdr_correction [resA, resB, resC] planW).getD 0 dummyResult).p_adj
        = some a ∧ (1 : ℚ) ≤ a :=
  (c6_fdr_monotone [resA, resB, resC] planW (by decide)).1 (by decide) 0 (by decide)
    1 (by decide)

